import Mathlib

/-!
Verification of the DistributedFileStorageGo repository.

Shallow embedding of the repository's data model and operations:
bytes are `Nat` below 256, Go strings are `List Char`, byte slices are
`List Nat`, and machine words are `Nat` reduced modulo `2 ^ 32` where the
source's `uint32` arithmetic overflows.  The on-disk store, the stream
cipher codec, the TCP read loop and the file-server coordinator are each
embedded from the corresponding Go source file.
-/

namespace DFSG

/-! ## Word and byte helpers (crypto/sha1, crypto/md5 word arithmetic) -/

/-- Reduce to a 32-bit word, as Go `uint32` arithmetic does implicitly. -/
def w32 (x : Nat) : Nat := x % 4294967296

/-- Left rotation, within 32 bits, of a word `x < 2^32` by `n` bits. -/
def rotl32 (n x : Nat) : Nat := w32 (x <<< n) ||| (x >>> (32 - n))

/-- Big-endian 4-byte serialisation of a 32-bit word. -/
def toBytesBE4 (x : Nat) : List Nat :=
  [x >>> 24 % 256, x >>> 16 % 256, x >>> 8 % 256, x % 256]

/-- Big-endian 8-byte serialisation of a 64-bit word. -/
def toBytesBE8 (x : Nat) : List Nat :=
  [x >>> 56 % 256, x >>> 48 % 256, x >>> 40 % 256, x >>> 32 % 256,
   x >>> 24 % 256, x >>> 16 % 256, x >>> 8 % 256, x % 256]

/-- Little-endian 4-byte serialisation of a 32-bit word. -/
def toBytesLE4 (x : Nat) : List Nat :=
  [x % 256, x >>> 8 % 256, x >>> 16 % 256, x >>> 24 % 256]

/-- Little-endian 8-byte serialisation of a 64-bit word. -/
def toBytesLE8 (x : Nat) : List Nat :=
  [x % 256, x >>> 8 % 256, x >>> 16 % 256, x >>> 24 % 256,
   x >>> 32 % 256, x >>> 40 % 256, x >>> 48 % 256, x >>> 56 % 256]

/-- Group a byte list into big-endian 32-bit words (4 bytes each). -/
def wordsBE : List Nat → List Nat
  | a :: b :: c :: d :: rest => (a * 16777216 + b * 65536 + c * 256 + d) :: wordsBE rest
  | _ => []

/-- Group a byte list into little-endian 32-bit words (4 bytes each). -/
def wordsLE : List Nat → List Nat
  | a :: b :: c :: d :: rest => (a + b * 256 + c * 65536 + d * 16777216) :: wordsLE rest
  | _ => []

/-- Split a byte list into 64-byte blocks; the fuel is an upper bound on
the number of blocks (one block consumes at least one byte, so the list
length suffices). -/
def chunk64Aux : Nat → List Nat → List (List Nat)
  | 0, _ => []
  | _ + 1, [] => []
  | fuel + 1, a :: rest => (a :: rest.take 63) :: chunk64Aux fuel (rest.drop 63)

/-- Split a byte list into 64-byte blocks. -/
def chunk64 (l : List Nat) : List (List Nat) := chunk64Aux l.length l

/-- Merkle–Damgård padding shared by SHA-1 and MD5: append `0x80`, zero
bytes to 56 mod 64, then the 8-byte bit length (serialised by `lenBytes`). -/
def padMsg (lenBytes : Nat → List Nat) (msg : List Nat) : List Nat :=
  msg ++ 0x80 :: List.replicate ((119 - msg.length % 64) % 64) 0 ++ lenBytes (8 * msg.length)

/-! ## SHA-1 (Go `crypto/sha1`, used by `CASPathTransformFunc` in store.go) -/

/-- SHA-1 round function for round `t`. -/
def sha1F (t b c d : Nat) : Nat :=
  if t < 20 then (b &&& c) ||| ((Nat.xor b 4294967295) &&& d)
  else if t < 40 then Nat.xor b (Nat.xor c d)
  else if t < 60 then (b &&& c) ||| (b &&& d) ||| (c &&& d)
  else Nat.xor b (Nat.xor c d)

/-- SHA-1 round constant for round `t`. -/
def sha1K (t : Nat) : Nat :=
  if t < 20 then 0x5A827999
  else if t < 40 then 0x6ED9EBA1
  else if t < 60 then 0x8F1BBCDC
  else 0xCA62C1D6

/-- Message-schedule extension: `acc` holds the words produced so far in
reverse order; each new word is `rotl1` of the xor of words 3, 8, 14 and 16
positions back. -/
def sha1Extend : Nat → List Nat → List Nat
  | 0, acc => acc
  | n + 1, acc =>
      let wt := rotl32 1 (Nat.xor (Nat.xor (acc.getD 2 0) (acc.getD 7 0))
                          (Nat.xor (acc.getD 13 0) (acc.getD 15 0)))
      sha1Extend n (wt :: acc)

/-- The 80 SHA-1 compression rounds over the scheduled words. -/
def sha1Rounds : List (Nat × Nat) → Nat × Nat × Nat × Nat × Nat → Nat × Nat × Nat × Nat × Nat
  | [], st => st
  | (t, wt) :: rest, (a, b, c, d, e) =>
      let temp := w32 (rotl32 5 a + sha1F t b c d + e + sha1K t + wt)
      sha1Rounds rest (temp, a, rotl32 30 b, c, d)

/-- Process one 64-byte block into the running SHA-1 state. -/
def sha1Chunk (h : Nat × Nat × Nat × Nat × Nat) (chunk : List Nat) :
    Nat × Nat × Nat × Nat × Nat :=
  let sched := (sha1Extend 64 (wordsBE chunk).reverse).reverse
  match sha1Rounds ((List.range 80).zip sched) h, h with
  | (a, b, c, d, e), (h0, h1, h2, h3, h4) =>
      (w32 (h0 + a), w32 (h1 + b), w32 (h2 + c), w32 (h3 + d), w32 (h4 + e))

/-- Serialise the final SHA-1 state, big-endian word by word. -/
def sha1Out (h : Nat × Nat × Nat × Nat × Nat) : List Nat :=
  toBytesBE4 h.1 ++ toBytesBE4 h.2.1 ++ toBytesBE4 h.2.2.1 ++
    toBytesBE4 h.2.2.2.1 ++ toBytesBE4 h.2.2.2.2

/-- SHA-1 digest of a byte list, as a list of 20 bytes (Go `sha1.Sum`). -/
def sha1 (msg : List Nat) : List Nat :=
  sha1Out ((chunk64 (padMsg toBytesBE8 msg)).foldl sha1Chunk
    (0x67452301, 0xEFCDAB89, 0x98BADCFE, 0x10325476, 0xC3D2E1F0))

/-! ## MD5 (Go `crypto/md5`, used by `hashKey` in crypto.go) -/

/-- The 64 MD5 sine-derived round constants. -/
def md5K : List Nat :=
  [0xd76aa478, 0xe8c7b756, 0x242070db, 0xc1bdceee,
   0xf57c0faf, 0x4787c62a, 0xa8304613, 0xfd469501,
   0x698098d8, 0x8b44f7af, 0xffff5bb1, 0x895cd7be,
   0x6b901122, 0xfd987193, 0xa679438e, 0x49b40821,
   0xf61e2562, 0xc040b340, 0x265e5a51, 0xe9b6c7aa,
   0xd62f105d, 0x02441453, 0xd8a1e681, 0xe7d3fbc8,
   0x21e1cde6, 0xc33707d6, 0xf4d50d87, 0x455a14ed,
   0xa9e3e905, 0xfcefa3f8, 0x676f02d9, 0x8d2a4c8a,
   0xfffa3942, 0x8771f681, 0x6d9d6122, 0xfde5380c,
   0xa4beea44, 0x4bdecfa9, 0xf6bb4b60, 0xbebfbc70,
   0x289b7ec6, 0xeaa127fa, 0xd4ef3085, 0x04881d05,
   0xd9d4d039, 0xe6db99e5, 0x1fa27cf8, 0xc4ac5665,
   0xf4292244, 0x432aff97, 0xab9423a7, 0xfc93a039,
   0x655b59c3, 0x8f0ccc92, 0xffeff47d, 0x85845dd1,
   0x6fa87e4f, 0xfe2ce6e0, 0xa3014314, 0x4e0811a1,
   0xf7537e82, 0xbd3af235, 0x2ad7d2bb, 0xeb86d391]

/-- The MD5 per-round left-rotation amounts. -/
def md5S : List Nat :=
  [7, 12, 17, 22, 7, 12, 17, 22, 7, 12, 17, 22, 7, 12, 17, 22,
   5, 9, 14, 20, 5, 9, 14, 20, 5, 9, 14, 20, 5, 9, 14, 20,
   4, 11, 16, 23, 4, 11, 16, 23, 4, 11, 16, 23, 4, 11, 16, 23,
   6, 10, 15, 21, 6, 10, 15, 21, 6, 10, 15, 21, 6, 10, 15, 21]

/-- MD5 round mixing function for round `i`. -/
def md5F (i b c d : Nat) : Nat :=
  if i < 16 then (b &&& c) ||| ((Nat.xor b 4294967295) &&& d)
  else if i < 32 then (d &&& b) ||| ((Nat.xor d 4294967295) &&& c)
  else if i < 48 then Nat.xor b (Nat.xor c d)
  else Nat.xor c (b ||| Nat.xor d 4294967295)

/-- Index into the message block used at round `i`. -/
def md5G (i : Nat) : Nat :=
  if i < 16 then i
  else if i < 32 then (5 * i + 1) % 16
  else if i < 48 then (3 * i + 5) % 16
  else (7 * i) % 16

/-- One MD5 round: rotate the mixed value into `b`, cycle the registers. -/
def md5Round (m : List Nat) (st : Nat × Nat × Nat × Nat) (i : Nat) :
    Nat × Nat × Nat × Nat :=
  match st with
  | (a, b, c, d) =>
      let f := w32 (md5F i b c d + a + md5K.getD i 0 + m.getD (md5G i) 0)
      (d, w32 (b + rotl32 (md5S.getD i 0) f), b, c)

/-- Process one 64-byte block into the running MD5 state. -/
def md5Chunk (h : Nat × Nat × Nat × Nat) (chunk : List Nat) : Nat × Nat × Nat × Nat :=
  let m := wordsLE chunk
  match (List.range 64).foldl (md5Round m) h, h with
  | (a, b, c, d), (h0, h1, h2, h3) =>
      (w32 (h0 + a), w32 (h1 + b), w32 (h2 + c), w32 (h3 + d))

/-- Serialise the final MD5 state, little-endian word by word. -/
def md5Out (h : Nat × Nat × Nat × Nat) : List Nat :=
  toBytesLE4 h.1 ++ toBytesLE4 h.2.1 ++ toBytesLE4 h.2.2.1 ++ toBytesLE4 h.2.2.2

/-- MD5 digest of a byte list, as a list of 16 bytes (Go `md5.Sum`). -/
def md5 (msg : List Nat) : List Nat :=
  md5Out ((chunk64 (padMsg toBytesLE8 msg)).foldl md5Chunk
    (0x67452301, 0xefcdab89, 0x98badcfe, 0x10325476))

/-! ## Hex encoding (Go `encoding/hex.EncodeToString`) -/

/-- Lower-case hex digit for a nibble. -/
def hexDigit (n : Nat) : Char :=
  if n < 10 then Char.ofNat (48 + n) else Char.ofNat (87 + n)

/-- Hex encoding of a byte list: two lower-case digits per byte. -/
def hexEncode (bs : List Nat) : List Char :=
  bs.flatMap (fun b => [hexDigit (b / 16), hexDigit (b % 16)])

/-- Embeds `hashKey` from crypto.go: MD5 of the key, hex-encoded.  Keys are Go
strings, modelled by their UTF-8 byte lists. -/
def hashKey (key : List Nat) : List Char := hexEncode (md5 key)

/-! ## Content addressing (store.go) -/

/-- Embeds `PathKey` from store.go: a sharded directory component plus a leaf
file name. -/
structure PathKey where
  PathName : List Char
  Filename : List Char
deriving DecidableEq, Repr

/-- Go `strings.Join(·, "/")`. -/
def joinSlash : List (List Char) → List Char
  | [] => []
  | [s] => s
  | s :: rest => s ++ '/' :: joinSlash rest

/-- Go `strings.Split(·, "/")`: split a string at every slash. -/
def splitSlash : List Char → List (List Char)
  | [] => [[]]
  | c :: r =>
      if c = '/' then [] :: splitSlash r
      else match splitSlash r with
        | s :: ss => (c :: s) :: ss
        | [] => [[c]]

/-- Embeds `CASPathTransformFunc` from store.go: SHA1 the key, hex-encode it,
slice the digest string into `len/5` consecutive 5-character blocks joined
by slashes for the directory, with the full digest as the file name. -/
def CASPathTransformFunc (key : List Nat) : PathKey :=
  let hashStr := hexEncode (sha1 key)
  let blocksize := 5
  let sliceLen := hashStr.length / blocksize
  let paths := (List.range sliceLen).map
    (fun i => (hashStr.drop (i * blocksize)).take blocksize)
  { PathName := joinSlash paths, Filename := hashStr }

/-- Embeds `PathKey.FirstPathName` from store.go: first slash-separated component
of the directory path. -/
def PathKey.FirstPathName (p : PathKey) : List Char :=
  (splitSlash p.PathName).headD []

/-- Embeds `PathKey.FullPath` from store.go: `PathName ++ "/" ++ Filename`. -/
def PathKey.FullPath (p : PathKey) : List Char :=
  p.PathName ++ '/' :: p.Filename

/-- Embeds `fmt.Sprintf("%s/%s/%s", a, b, c)` as used throughout store.go. -/
def sprintf3 (a b c : List Char) : List Char := a ++ '/' :: b ++ '/' :: c

/-! ## File-system model for the Store (store.go)

The Store calls `os.MkdirAll`, `os.Create`, `os.Stat`, `os.Open` and
`os.RemoveAll` on paths built by string formatting.  We model the disk as
the sets of existing regular-file paths and directory paths; `MkdirAll`
creates every slash-boundary prefix of its argument, `RemoveAll` removes a
path and everything below it, and `Stat`/`Open` succeed on files and on
directories alike. -/

structure FSState where
  files : List (List Char)
  dirs : List (List Char)
deriving DecidableEq, Repr

/-- Accumulating helper for `dirPrefixes`: `acc` holds the consumed prefix
reversed; every slash boundary (and the whole path) is emitted. -/
def dirPrefixesAux (acc : List Char) : List Char → List (List Char)
  | [] => [acc.reverse]
  | c :: r =>
      if c = '/' then acc.reverse :: dirPrefixesAux ('/' :: acc) r
      else dirPrefixesAux (c :: acc) r

/-- All directories `os.MkdirAll p` creates (or requires): every
slash-boundary prefix of `p`, including `p` itself. -/
def dirPrefixes (p : List Char) : List (List Char) := dirPrefixesAux [] p

/-- Result of `os.Stat`: success, `os.ErrNotExist`, or any other error
(permission, I/O, ...). -/
inductive StatRes
  | ok
  | errNotExist
  | errOther
deriving DecidableEq, Repr

/-- The stat behaviour of a healthy disk in state `fs`: succeed on any
existing file or directory, otherwise report `ErrNotExist`. -/
def fsStat (fs : FSState) (p : List Char) : StatRes :=
  if p ∈ fs.files ∨ p ∈ fs.dirs then .ok else .errNotExist

/-- Embeds `Store.Has` from store.go, parametrised by the stat oracle: it returns
`!errors.Is(err, os.ErrNotExist)`, so every stat outcome other than
`ErrNotExist` — success or any other failure — reports the key as present. -/
def hasWithStat (stat : List Char → StatRes) (root id : List Char) (key : List Nat) : Bool :=
  let pathKey := CASPathTransformFunc key
  let fullPathWithRoot := sprintf3 root id pathKey.FullPath
  !(stat fullPathWithRoot == StatRes.errNotExist)

/-- Embeds `Store.Has` on a healthy disk. -/
def storeHas (fs : FSState) (root id : List Char) (key : List Nat) : Bool :=
  hasWithStat (fsStat fs) root id key

/-- Embeds `Store.openFileForWriting` from store.go: `MkdirAll` the directory
path, then `os.Create` the leaf file.  (`Store.Write`/`writeStream` then
just `io.Copy` the payload into that file.) -/
def openFileForWriting (fs : FSState) (root id : List Char) (key : List Nat) : FSState :=
  let pathKey := CASPathTransformFunc key
  let pathNameWithRoot := sprintf3 root id pathKey.PathName
  let fullPathWithRoot := sprintf3 root id pathKey.FullPath
  { files := fullPathWithRoot :: fs.files,
    dirs := fs.dirs ++ dirPrefixes pathNameWithRoot }

/-- Embeds `Store.Write` (via `writeStream`), tracking only which paths exist. -/
def storeWrite (fs : FSState) (root id : List Char) (key : List Nat) : FSState :=
  openFileForWriting fs root id key

/-- Does path `e` lie at or below path `p`? (`os.RemoveAll p` removes
exactly these entries.) -/
def underPath (p e : List Char) : Bool :=
  e == p || (p ++ ['/']).isPrefixOf e

/-- Embeds `os.RemoveAll`: drop the path and its whole subtree. -/
def removeAll (fs : FSState) (p : List Char) : FSState :=
  { files := fs.files.filter (fun e => !underPath p e),
    dirs := fs.dirs.filter (fun e => !underPath p e) }

/-- Embeds `Store.Delete` from store.go: `RemoveAll` on
`<root>/<id>/<FirstPathName>` — the entire top-level shard directory of the
key, not just the leaf file. -/
def storeDelete (fs : FSState) (root id : List Char) (key : List Nat) : FSState :=
  let pathKey := CASPathTransformFunc key
  removeAll fs (sprintf3 root id pathKey.FirstPathName)

/-- Outcome of `Store.Read`/`readStream` from store.go: `os.Open` then
`Stat`.  Both succeed on a regular file and also on a directory (Go's
`os.Open` opens directories), and fail when the path does not exist. -/
inductive ReadRes
  | okFile
  | okDir
  | errNotFound
deriving DecidableEq, Repr

/-- Embeds `Store.Read` (via `readStream`). -/
def storeRead (fs : FSState) (root id : List Char) (key : List Nat) : ReadRes :=
  let pathKey := CASPathTransformFunc key
  let fullPathWithRoot := sprintf3 root id pathKey.FullPath
  if fullPathWithRoot ∈ fs.files then .okFile
  else if fullPathWithRoot ∈ fs.dirs then .okDir
  else .errNotFound

/-! ## Stream cipher codec (crypto.go)

`copyEncrypt`/`copyDecrypt` run AES-CTR: the keystream produced by
`cipher.NewCTR(block, iv)` is a function of the key and the
initialization value only, and `XORKeyStream` xors it byte by byte into
the data, keeping its position across the buffered `copyStream` chunks.
We model the keystream as an arbitrary function `ks key iv : Nat → Nat`
of the byte position.  `aes.NewCipher` fails unless the key is 16, 24 or
32 bytes long; the AES block size (= IV width) is 16 bytes. -/

/-- Xor a byte list against the keystream starting at position `i`. -/
def xorKeyStreamFrom (ks : Nat → Nat) : Nat → List Nat → List Nat
  | _, [] => []
  | i, b :: rest => Nat.xor b (ks i) :: xorKeyStreamFrom ks (i + 1) rest

/-- Embeds `cipher.Stream.XORKeyStream` over a whole byte list. -/
def xorKeyStream (ks : Nat → Nat) (data : List Nat) : List Nat :=
  xorKeyStreamFrom ks 0 data

/-- Embeds the fact that `aes.NewCipher` succeeds exactly on 16-, 24- or 32-byte keys. -/
def validAESKeyLength (key : List Nat) : Bool :=
  key.length == 16 || key.length == 24 || key.length == 32

/-- Embeds `copyEncrypt` from crypto.go: fail if the key length is invalid,
else write the fresh 16-byte IV followed by the xor of the payload with
the keystream determined by key and IV.  Returns the bytes written to
`dst`. -/
def copyEncrypt (ks : List Nat → List Nat → Nat → Nat) (key iv src : List Nat) :
    Option (List Nat) :=
  if validAESKeyLength key then some (iv ++ xorKeyStream (ks key iv) src)
  else none

/-- Embeds `copyDecrypt` from crypto.go: fail if the key length is invalid, else
read the 16-byte IV prefix from the source and xor the remainder with
the keystream determined by key and IV.  Returns the bytes written to
`dst`. -/
def copyDecrypt (ks : List Nat → List Nat → Nat → Nat) (key data : List Nat) :
    Option (List Nat) :=
  if validAESKeyLength key then
    some (xorKeyStream (ks key (data.take 16)) (data.drop 16))
  else none

/-! ## Wire marker bytes and RPC frames -/

/-- Modelled from the spec: the repository file defining the `RPC` record's
`Stream` flag and the `IncomingMessage`/`IncomingStream` marker byte
constants (message.go) is not among the source files, though
tcp_transport.go, encoding.go and the file server all use them.  The spec
fixes "one marker byte per frame (`CONTROL` or `STREAM`)" with distinct
values; we model them as 1 and 2. -/
def IncomingMessage : Nat := 1

/-- Modelled from the spec: the STREAM marker byte, distinct from
`IncomingMessage` (see there). -/
def IncomingStream : Nat := 2

/-- The `RPC` record as decoded by the transport: the stream flag and the
raw payload bytes (the `From` address is irrelevant to the claims). -/
structure RPCm where
  Stream : Bool
  Payload : List Nat
deriving DecidableEq, Repr

/-! ## DefaultDecoder and the connection read loop (p2p/encoding.go,
p2p/tcp_transport.go)

The byte stream arriving on one connection is a `List Nat`; each Go
`conn.Read(buf)` returns the available bytes up to the buffer size, and
fails exactly when no bytes remain (the peer closed the connection). -/

/-- Result of one `Decoder.Decode` call: a decoded RPC plus the remaining
input, or a returned error. -/
inductive DecodeResult
  | ok (msg : RPCm) (rest : List Nat)
  | fail
deriving DecidableEq, Repr

/-- Embeds `DefaultDecoder.Decode` from p2p/encoding.go.  A failed read of the
1-byte marker is swallowed — the source returns `nil` and leaves the RPC
zero-valued.  A stream marker only sets the `Stream` flag.  Otherwise one
read of up to 1028 bytes becomes the payload, and that read's failure is
returned as the decode error. -/
def decodeDefault : List Nat → DecodeResult
  | [] => .ok { Stream := false, Payload := [] } []
  | b :: rest =>
      if b == IncomingStream then .ok { Stream := true, Payload := [] } rest
      else match rest with
        | [] => .fail
        | _ :: _ => .ok { Stream := false, Payload := rest.take 1028 } (rest.drop 1028)

/-- State of one connection: bytes not yet consumed, whether the read loop
is blocked on the per-peer WaitGroup, the RPCs pushed to `rpcch`, and
whether the read loop has returned. -/
structure ConnState where
  input : List Nat
  waiting : Bool
  delivered : List RPCm
  closed : Bool
deriving DecidableEq, Repr

/-- Events interleaving the read loop of `TCPTransport.handleConn` with
the stream consumer: one read-loop iteration, the consumer reading `n`
stream bytes directly off the connection, or `TCPPeer.CloseStream`
(`wg.Done`) releasing the gate. -/
inductive ConnEvent
  | loopStep
  | consumerRead (n : Nat)
  | closeStream
deriving DecidableEq, Repr

/-- One event of the connection system.  A `loopStep` mirrors one
iteration of the read loop in `TCPTransport.handleConn`: nothing happens
if the loop has returned or is blocked in `wg.Wait`; a decode error
returns from the loop; a stream frame blocks on the gate; any other frame
is pushed onto the RPC channel. -/
def connStep (s : ConnState) : ConnEvent → ConnState
  | .loopStep =>
      if s.closed || s.waiting then s
      else
        match decodeDefault s.input with
        | .fail => { s with closed := true }
        | .ok msg rest =>
            if msg.Stream then { s with input := rest, waiting := true }
            else { s with input := rest, delivered := s.delivered ++ [msg] }
  | .consumerRead n => { s with input := s.input.drop n }
  | .closeStream => { s with waiting := false }

/-- Run the connection system over a sequence of events. -/
def connRun (s : ConnState) (evs : List ConnEvent) : ConnState :=
  evs.foldl connStep s

/-! ## FileServer (unnamed source files: server setup and Store path) -/

/-- The `MessageStoreFile` control record broadcast by `FileServer.Store`. -/
structure MessageStoreFile where
  ID : List Char
  Key : List Char
  Size : Nat
deriving DecidableEq, Repr

/-- Observable effect of the local-write and message-construction part of
`FileServer.Store`: the tee'd local write (`s.store.Write`) reports
`io.Copy`'s byte count, i.e. the payload length, and the broadcast message
carries the MD5-hexed key and `size + 16`. -/
structure StoreLocalEffect where
  localBytes : Nat
  msg : MessageStoreFile
deriving DecidableEq, Repr

/-- Embeds the local write of `FileServer.Store` and `MessageStoreFile` construction,
from the file-server source: `size` is the number of bytes `io.Copy` wrote
to the store, and the broadcast message records `hashKey(key)` and
`size + 16`. -/
def fileServerStoreMsg (id : List Char) (key data : List Nat) : StoreLocalEffect :=
  let size := data.length
  { localBytes := size,
    msg := { ID := id, Key := hashKey key, Size := size + 16 } }

/-- A peer's send behaviour: whether its `i`-th `Send`/`Write` call
succeeds.  (`TCPPeer.Send` just writes to the TCP connection.) -/
def PeerSends : Type := Nat → Bool

/-- Embeds `FileServer.broadcast`: for each registered peer, send the one-byte
`IncomingMessage` marker — the source discards this call's error — then
send the gob payload, returning that error if it fails.  Counters track
how many sends each peer has seen; `none` models a returned error. -/
def broadcastToPeers : List (PeerSends × Nat) → Option (List (PeerSends × Nat))
  | [] => some []
  | (p, c) :: rest =>
      if p (c + 1) then (broadcastToPeers rest).map (fun l => (p, c + 2) :: l)
      else none

/-- One `io.MultiWriter.Write`: write to each peer in order, stopping at
the first failure; returns the success flag and the updated counters. -/
def multiWrite : List (PeerSends × Nat) → Bool × List (PeerSends × Nat)
  | [] => (true, [])
  | (p, c) :: rest =>
      if p c then
        let res := multiWrite rest
        (res.1, (p, c + 1) :: res.2)
      else (false, (p, c + 1) :: rest)

/-- Runs `n` sequential MultiWriter writes (the encrypted payload chunks copied
by `copyStream`), aborting at the first failed write. -/
def multiWriteN : Nat → List (PeerSends × Nat) → Bool × List (PeerSends × Nat)
  | 0, ps => (true, ps)
  | n + 1, ps =>
      let res := multiWrite ps
      if res.1 then multiWriteN n res.2 else (false, res.2)

/-- Error behaviour of `FileServer.Store`, from the file-server source:
returns `true` iff Store returns a non-nil error.  The local write error is
returned; `broadcast` returns the gob-payload send error but drops the
control-marker send error; `mw.Write([]byte{IncomingStream})`'s error is
discarded entirely; `copyEncrypt`'s IV write and the `nChunks` ciphertext
chunk writes return their errors. -/
def fileServerStoreErr (writeErr : Bool) (nChunks : Nat) (peers : List PeerSends) : Bool :=
  if writeErr then true
  else
    match broadcastToPeers (peers.map (fun p => (p, 0))) with
    | none => true
    | some ps1 =>
        let ps2 := (multiWrite ps1).2
        let ivw := multiWrite ps2
        if !ivw.1 then true
        else !(multiWriteN nChunks ivw.2).1

/-- Actions a starting node performs against its transport. -/
inductive NodeAction
  | listenAndAccept
  | dial (addr : List Char)
deriving DecidableEq, Repr

/-- Is this action a `Transport.Dial`? -/
def NodeAction.isDial : NodeAction → Bool
  | .dial _ => true
  | .listenAndAccept => false

/-- Embeds `FileServer.Start` from the main source file: its entire body is
`return fs.Transport.ListenAndAccept()`; the `BootstrapNodes` list the
server was constructed with is never consulted and `Transport.Dial` is
never called. -/
def fileServerStart (_bootstrapNodes : List (List Char)) : List NodeAction :=
  [NodeAction.listenAndAccept]

/-! ## Helper lemmas -/

theorem xorKeyStreamFrom_length (ks : Nat → Nat) (data : List Nat) :
    ∀ i, (xorKeyStreamFrom ks i data).length = data.length := by
  induction data with
  | nil => intro i; rfl
  | cons b rest ih => intro i; simp [xorKeyStreamFrom, ih]

theorem xorKeyStreamFrom_involution (ks : Nat → Nat) (data : List Nat) :
    ∀ i, xorKeyStreamFrom ks i (xorKeyStreamFrom ks i data) = data := by
  induction data with
  | nil => intro i; rfl
  | cons b rest ih =>
      intro i
      simp only [xorKeyStreamFrom, ih]
      exact congrArg (· :: rest) (Nat.xor_cancel_right (ks i) b)

theorem hexEncode_length (bs : List Nat) : (hexEncode bs).length = 2 * bs.length := by
  induction bs with
  | nil => rfl
  | cons b rest ih => simp [hexEncode] at ih ⊢; omega

theorem sha1_length (msg : List Nat) : (sha1 msg).length = 20 := by
  simp [sha1, sha1Out, toBytesBE4]

theorem md5_length (msg : List Nat) : (md5 msg).length = 16 := by
  simp [md5, md5Out, toBytesLE4]

theorem hashKey_length (key : List Nat) : (hashKey key).length = 32 := by
  simp [hashKey, hexEncode_length, md5_length]

/-! ## C1: stream-cipher round trip -/

/-- C1: for every byte payload `M` and every valid (16/24/32-byte) cipher
key, for any keystream family (a function of key and IV, as AES-CTR's is),
decrypting the output of encrypting `M` with the same key reproduces `M`
exactly, and the encrypted output's length is the 16-byte IV length plus
the length of `M`. -/
theorem c1_crypto_roundtrip (ks : List Nat → List Nat → Nat → Nat) (key iv M : List Nat)
    (hkey : validAESKeyLength key = true) (hiv : iv.length = 16) :
    ∃ ct, copyEncrypt ks key iv M = some ct ∧
      copyDecrypt ks key ct = some M ∧ ct.length = 16 + M.length := by
  refine ⟨iv ++ xorKeyStream (ks key iv) M, ?_, ?_, ?_⟩
  · simp [copyEncrypt, hkey]
  · have htake : (iv ++ xorKeyStream (ks key iv) M).take 16 = iv := by
      rw [← hiv]; exact List.take_left _ _
    have hdrop : (iv ++ xorKeyStream (ks key iv) M).drop 16 = xorKeyStream (ks key iv) M := by
      rw [← hiv]; exact List.drop_left _ _
    unfold copyDecrypt
    rw [if_pos hkey, htake, hdrop]
    simp [xorKeyStream, xorKeyStreamFrom_involution]
  · simp [hiv, xorKeyStream, xorKeyStreamFrom_length]

/-- Witness for C1 at a concrete keystream, key, IV and payload. -/
theorem c1_crypto_roundtrip_witness :
    ∃ ct, copyEncrypt (fun _ _ _ => 7) (List.replicate 32 0) (List.replicate 16 5) [10, 20, 30] = some ct ∧
      copyDecrypt (fun _ _ _ => 7) (List.replicate 32 0) ct = some [10, 20, 30] ∧
      ct.length = 16 + 3 := by
  have h := c1_crypto_roundtrip (fun _ _ _ => 7) (List.replicate 32 0)
    (List.replicate 16 5) [10, 20, 30] (by decide) (by decide)
  simpa using h

/-! ## C4: the StoreFile control message -/

/-- C4 as stated is false: at the demo input (key `picture_0.png`, the
22-byte payload `my big data file here!`) the broadcast message's `Size`
field is 38 while 22 bytes were written to the local storage engine. -/
theorem c4_size_counterexample :
    (fileServerStoreMsg ("node1").toList (("picture_0.png").toList.map Char.toNat)
        (("my big data file here!").toList.map Char.toNat)).localBytes = 22 ∧
    (fileServerStoreMsg ("node1").toList (("picture_0.png").toList.map Char.toNat)
        (("my big data file here!").toList.map Char.toNat)).msg.Size = 38 ∧
    (fileServerStoreMsg ("node1").toList (("picture_0.png").toList.map Char.toNat)
        (("my big data file here!").toList.map Char.toNat)).msg.Size ≠
      (fileServerStoreMsg ("node1").toList (("picture_0.png").toList.map Char.toNat)
        (("my big data file here!").toList.map Char.toNat)).localBytes := by
  refine ⟨rfl, rfl, ?_⟩
  decide

/-- C4 amended: the StoreFile message records the MD5-hex derived key, and
its `Size` field is the number of bytes written locally plus the 16-byte
IV length — the size of the encrypted stream the peers will receive — not
the local byte count itself. -/
theorem c4_storefile_message (id : List Char) (key data : List Nat) :
    (fileServerStoreMsg id key data).msg.Size = (fileServerStoreMsg id key data).localBytes + 16 ∧
    (fileServerStoreMsg id key data).msg.Key = hashKey key ∧
    (fileServerStoreMsg id key data).msg.Key.length = 32 := by
  refine ⟨rfl, rfl, ?_⟩
  simp [fileServerStoreMsg, hashKey_length]

/-! ## C8: bootstrap dialing -/

/-- C8: the code evaluated against the claim: `FileServer.Start` with the
demo bootstrap list performs only `ListenAndAccept`, and for every
bootstrap list it performs no `Dial` at all. -/
theorem c8_start_never_dials :
    fileServerStart [(":3000").toList, (":7000").toList] = [NodeAction.listenAndAccept] ∧
    ∀ bs, (fileServerStart bs).filter NodeAction.isDial = [] :=
  ⟨rfl, fun _ => rfl⟩

/-! ## C10: Has error semantics -/

/-- C10: `Store.Has` returns `false` exactly when stat fails with
`ErrNotExist`; for any other stat failure (such as a permission error) it
returns `true`, reporting the key as present. -/
theorem c10_has_error_semantics (stat : List Char → StatRes) (root id : List Char) (key : List Nat) :
    (hasWithStat stat root id key = false ↔
      stat (sprintf3 root id (CASPathTransformFunc key).FullPath) = StatRes.errNotExist) ∧
    (stat (sprintf3 root id (CASPathTransformFunc key).FullPath) = StatRes.errOther →
      hasWithStat stat root id key = true) := by
  constructor
  · cases h : stat (sprintf3 root id (CASPathTransformFunc key).FullPath) <;>
      simp [hasWithStat, h]
  · intro h
    simp [hasWithStat, h]

/-- Witness for C10: a stat oracle failing with a non-ErrNotExist error
still reports the key as present. -/
theorem c10_has_error_semantics_witness :
    hasWithStat (fun _ => StatRes.errOther) [] [] [] = true :=
  (c10_has_error_semantics (fun _ => StatRes.errOther) [] [] []).2 rfl

/-! ## C6: decode errors and the read loop -/

/-- C6 as stated is false: when the read of the leading marker byte fails
(the input is exhausted), `DefaultDecoder.Decode` swallows the error and
returns success with a zero-valued RPC, so the read loop pushes an empty
RPC and keeps running instead of terminating. -/
theorem c6_marker_read_error_counterexample :
    connStep { input := [], waiting := false, delivered := [], closed := false }
        ConnEvent.loopStep =
      { input := [], waiting := false,
        delivered := [{ Stream := false, Payload := [] }], closed := false } := by
  rfl

/-- C6 amended: an error actually returned by the decoder — a failed read
of a control frame's body after its marker byte — terminates the
connection's read loop, and once the loop has returned no further RPC is
ever pushed; but a failed read of the leading marker byte itself is
swallowed by `DefaultDecoder` and does not terminate the loop. -/
theorem c6_decode_error_terminates (b : Nat) (d : List RPCm)
    (hb : (b == IncomingStream) = false) :
    connStep { input := [b], waiting := false, delivered := d, closed := false }
        ConnEvent.loopStep =
      { input := [b], waiting := false, delivered := d, closed := true } ∧
    ∀ (s : ConnState), s.closed = true → ∀ evs,
      (connRun s evs).closed = true ∧ (connRun s evs).delivered = s.delivered := by
  constructor
  · simp [connStep, decodeDefault, hb]
  · intro s hs evs
    induction evs generalizing s with
    | nil => exact ⟨hs, rfl⟩
    | cons e rest ih =>
        cases e with
        | loopStep =>
            have hstep : connStep s ConnEvent.loopStep = s := by
              simp [connStep, hs]
            simpa [connRun, hstep] using ih s hs
        | consumerRead n =>
            have := ih { s with input := s.input.drop n } hs
            simpa [connRun, connStep] using this
        | closeStream =>
            have := ih { s with waiting := false } hs
            simpa [connRun, connStep] using this

/-- Witness for C6 (amended): a control marker byte followed by nothing —
the body read fails — terminates the loop. -/
theorem c6_decode_error_terminates_witness :
    connStep { input := [1], waiting := false, delivered := [], closed := false }
        ConnEvent.loopStep =
      { input := [1], waiting := false, delivered := [], closed := true } :=
  (c6_decode_error_terminates 1 [] (by decide)).1

/-! ## C5: stream suspension gate -/

theorem connRun_waiting_frozen (s : ConnState) (hw : s.waiting = true) :
    ∀ evs, ConnEvent.closeStream ∉ evs →
      (connRun s evs).delivered = s.delivered ∧ (connRun s evs).waiting = true := by
  intro evs
  induction evs generalizing s with
  | nil => intro _; exact ⟨rfl, hw⟩
  | cons e rest ih =>
      intro hmem
      have hrest : ConnEvent.closeStream ∉ rest := fun h => hmem (List.mem_cons_of_mem _ h)
      cases e with
      | loopStep =>
          have hstep : connStep s ConnEvent.loopStep = s := by
            simp [connStep, hw]
          simpa [connRun, hstep] using ih s hw hrest
      | consumerRead n =>
          have := ih { s with input := s.input.drop n } hw hrest
          simpa [connRun, connStep] using this
      | closeStream => exact absurd (List.mem_cons_self _ _) hmem

/-- C5: on one connection, after the read loop decodes a stream-marker
frame it is blocked on the per-peer gate: under any further events that do
not include `CloseStream` it decodes nothing and pushes no RPC; and a
control frame arriving right after exactly the declared stream bytes is
decoded correctly — payload intact — once the consumer has read those
bytes and released the gate. -/
theorem c5_stream_gate (streamBytes ctrlPayload : List Nat)
    (hne : ctrlPayload ≠ []) (hlen : ctrlPayload.length ≤ 1028) :
    (∀ evs, ConnEvent.closeStream ∉ evs →
      (connRun (connStep
          { input := IncomingStream :: (streamBytes ++ IncomingMessage :: ctrlPayload),
            waiting := false, delivered := [], closed := false } ConnEvent.loopStep)
        evs).delivered = []) ∧
    connRun
      { input := IncomingStream :: (streamBytes ++ IncomingMessage :: ctrlPayload),
        waiting := false, delivered := [], closed := false }
      [ConnEvent.loopStep, ConnEvent.consumerRead streamBytes.length,
       ConnEvent.closeStream, ConnEvent.loopStep] =
      { input := [], waiting := false,
        delivered := [{ Stream := false, Payload := ctrlPayload }], closed := false } := by
  have hstep1 : connStep
      { input := IncomingStream :: (streamBytes ++ IncomingMessage :: ctrlPayload),
        waiting := false, delivered := [], closed := false } ConnEvent.loopStep =
      { input := streamBytes ++ IncomingMessage :: ctrlPayload,
        waiting := true, delivered := [], closed := false } := by
    simp [connStep, decodeDefault]
  constructor
  · intro evs hmem
    rw [hstep1]
    exact (connRun_waiting_frozen _ rfl evs hmem).1
  · have htk : ctrlPayload.take 1028 = ctrlPayload := List.take_of_length_le hlen
    have hdp : ctrlPayload.drop 1028 = [] := List.drop_eq_nil_of_le hlen
    obtain ⟨c, cs, rfl⟩ : ∃ c cs, ctrlPayload = c :: cs := by
      cases ctrlPayload with
      | nil => exact absurd rfl hne
      | cons c cs => exact ⟨c, cs, rfl⟩
    simp only [connRun, List.foldl_cons, List.foldl_nil, hstep1]
    simp [connStep, decodeDefault, List.drop_left, IncomingMessage, IncomingStream, htk, hdp]

/-- Witness for C5 at a concrete two-byte stream and one-byte control
frame. -/
theorem c5_stream_gate_witness :
    ((connRun (connStep
        { input := IncomingStream :: ([9, 9] ++ IncomingMessage :: [5]),
          waiting := false, delivered := [], closed := false } ConnEvent.loopStep)
      [ConnEvent.loopStep]).delivered = []) ∧
    connRun
      { input := IncomingStream :: ([9, 9] ++ IncomingMessage :: [5]),
        waiting := false, delivered := [], closed := false }
      [ConnEvent.loopStep, ConnEvent.consumerRead 2,
       ConnEvent.closeStream, ConnEvent.loopStep] =
      { input := [], waiting := false,
        delivered := [{ Stream := false, Payload := [5] }], closed := false } := by
  have h := c5_stream_gate [9, 9] [5] (by decide) (by decide)
  exact ⟨h.1 [ConnEvent.loopStep] (by decide), h.2⟩

/-! ## C7: Store error propagation -/

/-- A peer list is `good` when every peer answers every send from its
current counter on (all counters at least 1). -/
def goodPeers (l : List (PeerSends × Nat)) : Prop :=
  ∀ pc ∈ l, (∀ j, 1 ≤ j → pc.1 j = true) ∧ 1 ≤ pc.2

theorem broadcastToPeers_payload_fail :
    ∀ l : List (PeerSends × Nat), (∃ pc ∈ l, pc.1 (pc.2 + 1) = false) →
      broadcastToPeers l = none := by
  intro l
  induction l with
  | nil => rintro ⟨pc, hmem, _⟩; cases hmem
  | cons hd tl ih =>
      rintro ⟨pc, hmem, hfail⟩
      rcases List.mem_cons.mp hmem with rfl | hm
      · obtain ⟨p, c⟩ := pc
        simp only [broadcastToPeers]
        simp only at hfail
        rw [hfail]
        rfl
      · obtain ⟨p, c⟩ := hd
        simp only [broadcastToPeers]
        cases hp : p (c + 1)
        · rfl
        · rw [ih ⟨pc, hm, hfail⟩]
          rfl

theorem broadcastToPeers_markers_only (l : List (PeerSends × Nat))
    (h : ∀ pc ∈ l, (∀ j, 1 ≤ j → pc.1 j = true) ∧ pc.2 = 0) :
    ∃ l2, broadcastToPeers l = some l2 ∧ goodPeers l2 := by
  induction l with
  | nil => exact ⟨[], rfl, by intro pc hmem; cases hmem⟩
  | cons hd tl ih =>
      obtain ⟨p, c⟩ := hd
      obtain ⟨hp, hc⟩ := h (p, c) (List.mem_cons_self _ _)
      obtain ⟨l2, hl2, hgood⟩ := ih (fun pc hm => h pc (List.mem_cons_of_mem _ hm))
      have hp2 : p (c + 1) = true := hp (c + 1) (by omega)
      refine ⟨(p, c + 2) :: l2, ?_, ?_⟩
      · simp [broadcastToPeers, hp2, hl2]
      · intro pc hmem
        rcases List.mem_cons.mp hmem with rfl | hm
        · exact ⟨hp, by omega⟩
        · exact hgood pc hm

theorem multiWrite_good (l : List (PeerSends × Nat)) (h : goodPeers l) :
    (multiWrite l).1 = true ∧ goodPeers (multiWrite l).2 := by
  induction l with
  | nil => exact ⟨rfl, by intro pc hmem; cases hmem⟩
  | cons hd tl ih =>
      obtain ⟨p, c⟩ := hd
      obtain ⟨hp, hc⟩ := h (p, c) (List.mem_cons_self _ _)
      have htl := ih (fun pc hm => h pc (List.mem_cons_of_mem _ hm))
      have hpc : p c = true := hp c hc
      simp only [multiWrite, hpc, if_true]
      refine ⟨htl.1, ?_⟩
      intro pc hmem
      rcases List.mem_cons.mp hmem with rfl | hm
      · exact ⟨hp, by omega⟩
      · exact htl.2 pc hm

theorem multiWriteN_good (n : Nat) :
    ∀ l : List (PeerSends × Nat), goodPeers l → (multiWriteN n l).1 = true := by
  induction n with
  | zero => intro l _; rfl
  | succ m ih =>
      intro l h
      have hm := multiWrite_good l h
      simp only [multiWriteN, hm.1, if_true]
      exact ih _ hm.2

/-- C7 as stated is false: a peer whose control-marker send (its call 0)
and stream-marker write (its call 2) both fail, while all other sends
succeed, makes `Store` return no error — the source discards both
markers' errors. -/
theorem c7_marker_send_counterexample :
    ((fun c : Nat => !(c == 0 || c == 2)) 0 = false) ∧
    ((fun c : Nat => !(c == 0 || c == 2)) 2 = false) ∧
    fileServerStoreErr false 1 [fun c => !(c == 0 || c == 2)] = false := by
  refine ⟨rfl, rfl, ?_⟩
  rfl

/-- C7 amended: `FileServer.Store` returns the local-write error and the
error of any peer's gob-payload send in `broadcast`, and the errors of the
IV and ciphertext writes of the encrypted fan-out copy; but the errors of
the one-byte control-marker send and of the stream-marker write are
silently discarded, so `Store` can return nil although those sends
failed. -/
theorem c7_store_error_propagation :
    (∀ n (peers : List PeerSends), fileServerStoreErr true n peers = true) ∧
    (∀ n (peers : List PeerSends), (∃ p ∈ peers, p 1 = false) →
      fileServerStoreErr false n peers = true) ∧
    (∀ n (peers : List PeerSends), (∀ p ∈ peers, ∀ j, 1 ≤ j → p j = true) →
      fileServerStoreErr false n peers = false) := by
  refine ⟨fun n peers => rfl, ?_, ?_⟩
  · intro n peers ⟨p, hmem, hfail⟩
    have hb : broadcastToPeers (peers.map (fun p => (p, 0))) = none := by
      apply broadcastToPeers_payload_fail
      exact ⟨(p, 0), List.mem_map.mpr ⟨p, hmem, rfl⟩, hfail⟩
    simp [fileServerStoreErr, hb]
  · intro n peers hok
    obtain ⟨l2, hl2, hgood⟩ := broadcastToPeers_markers_only (peers.map (fun p => (p, 0)))
      (by
        intro pc hm
        obtain ⟨p, hp, rfl⟩ := List.mem_map.mp hm
        exact ⟨hok p hp, rfl⟩)
    have hm1 := multiWrite_good l2 hgood
    have hm2 := multiWrite_good (multiWrite l2).2 hm1.2
    have hm3 := multiWriteN_good n (multiWrite (multiWrite l2).2).2 hm2.2
    simp [fileServerStoreErr, hl2, hm2.1, hm3]

/-- Witness for C7 (amended) at concrete peers. -/
theorem c7_store_error_propagation_witness :
    fileServerStoreErr true 0 [] = true ∧
    fileServerStoreErr false 0 [fun _ => false] = true ∧
    fileServerStoreErr false 2 [fun j => !(j == 0)] = false := by
  refine ⟨c7_store_error_propagation.1 0 [],
    c7_store_error_propagation.2.1 0 [fun _ => false]
      ⟨fun _ => false, List.mem_singleton.mpr rfl, rfl⟩,
    c7_store_error_propagation.2.2 2 [fun j => !(j == 0)] ?_⟩
  intro p hp j hj
  rw [List.mem_singleton.mp hp]
  simp
  omega

/-! ## Hex and digest lemmas (for C2, C3, C9) -/

theorem hexDigit_inj : ∀ a < 16, ∀ b < 16, hexDigit a = hexDigit b → a = b := by decide

theorem hexDigit_ne_slash : ∀ n < 16, hexDigit n ≠ '/' := by decide

theorem toBytesBE4_lt (x : Nat) : ∀ b ∈ toBytesBE4 x, b < 256 := by
  intro b hb
  simp [toBytesBE4] at hb
  rcases hb with rfl | rfl | rfl | rfl <;> exact Nat.mod_lt _ (by norm_num)

theorem sha1_lt (msg : List Nat) : ∀ b ∈ sha1 msg, b < 256 := by
  intro b hb
  simp only [sha1, sha1Out, List.mem_append] at hb
  rcases hb with ((((h | h) | h) | h) | h) <;> exact toBytesBE4_lt _ b h

theorem hexEncode_inj (as : List Nat) : ∀ bs : List Nat, (∀ a ∈ as, a < 256) →
    (∀ b ∈ bs, b < 256) → (hexEncode as = hexEncode bs ↔ as = bs) := by
  induction as with
  | nil =>
      intro bs _ _
      constructor
      · intro h
        cases bs with
        | nil => rfl
        | cons b bs2 => simp [hexEncode] at h
      · rintro rfl; rfl
  | cons a as2 ih =>
      intro bs ha hb
      constructor
      · intro h
        cases bs with
        | nil => simp [hexEncode] at h
        | cons b bs2 =>
            simp only [hexEncode, List.flatMap_cons, List.cons_append, List.nil_append,
              List.cons.injEq] at h
            obtain ⟨h1, h2, h3⟩ := h
            have halt : a < 256 := ha a (List.mem_cons_self _ _)
            have hblt : b < 256 := hb b (List.mem_cons_self _ _)
            have e1 : a / 16 = b / 16 :=
              hexDigit_inj _ (by omega) _ (by omega) h1
            have e2 : a % 16 = b % 16 :=
              hexDigit_inj _ (by omega) _ (by omega) h2
            have hab : a = b := by omega
            have htail := (ih bs2 (fun x hx => ha x (List.mem_cons_of_mem _ hx))
              (fun x hx => hb x (List.mem_cons_of_mem _ hx))).mp
            rw [hab, htail h3]
      · rintro rfl; rfl

theorem hexEncode_mem_ne_slash (bs : List Nat) (hb : ∀ b ∈ bs, b < 256) :
    ∀ c ∈ hexEncode bs, c ≠ '/' := by
  intro c hc
  simp only [hexEncode, List.mem_flatMap] at hc
  obtain ⟨b, hbmem, hcmem⟩ := hc
  have hblt := hb b hbmem
  simp only [List.mem_cons, List.not_mem_nil, or_false] at hcmem
  rcases hcmem with rfl | rfl
  · exact hexDigit_ne_slash _ (by omega)
  · exact hexDigit_ne_slash _ (by omega)

/-! ## Digest segmentation (for C2, C9) -/

/-- Spec-side segmentation of a digest string into consecutive fixed-width
5-character pieces. -/
def segments5 : List Char → List (List Char)
  | [] => []
  | c :: rest => (c :: rest.take 4) :: segments5 (rest.drop 4)
termination_by l => l.length
decreasing_by simp [List.length_drop]; omega

theorem segments5_eq_range : ∀ (n : Nat) (l : List Char), l.length = 5 * n →
    segments5 l = (List.range n).map (fun i => (l.drop (i * 5)).take 5) := by
  intro n
  induction n with
  | zero =>
      intro l hl
      have hnil : l = [] := List.eq_nil_of_length_eq_zero (by omega)
      subst hnil
      simp [segments5]
  | succ m ih =>
      intro l hl
      cases l with
      | nil => simp at hl
      | cons c rest =>
          have hrest : (rest.drop 4).length = 5 * m := by
            simp [List.length_drop]
            simp at hl
            omega
          rw [segments5, ih (rest.drop 4) hrest, List.range_succ_eq_map]
          simp only [List.map_cons, List.map_map, List.cons.injEq]
          refine ⟨by simp, ?_⟩
          apply List.map_congr_left
          intro i hi
          simp only [Function.comp_apply]
          have hdq : List.drop (Nat.succ i * 5) (c :: rest) = List.drop (4 + i * 5) rest := by
            have h1 : Nat.succ i * 5 = (4 + i * 5) + 1 := by omega
            rw [h1, List.drop_succ_cons]
          have hdd : List.drop (i * 5) (List.drop 4 rest) = List.drop (4 + i * 5) rest := by
            rw [List.drop_drop]
          rw [hdd, hdq]

theorem CAS_filename (key : List Nat) :
    (CASPathTransformFunc key).Filename = hexEncode (sha1 key) := rfl

theorem CAS_pathName (key : List Nat) :
    (CASPathTransformFunc key).PathName =
      joinSlash ((List.range 8).map
        (fun i => ((hexEncode (sha1 key)).drop (i * 5)).take 5)) := by
  have hlen : (hexEncode (sha1 key)).length = 40 := by
    rw [hexEncode_length, sha1_length]
  simp [CASPathTransformFunc, hlen]

theorem CAS_pathName_segments (key : List Nat) :
    (CASPathTransformFunc key).PathName =
      joinSlash (segments5 (hexEncode (sha1 key))) := by
  have hlen : (hexEncode (sha1 key)).length = 40 := by
    rw [hexEncode_length, sha1_length]
  rw [CAS_pathName, segments5_eq_range 8 _ (by omega)]

/-! ## C2: content-addressing path function -/

/-- C2: the content-addressing path function is pure by construction (it
is a function of the key alone); its leaf file name is the SHA1 digest of
the key hex-encoded, its directory component is that digest split into
consecutive fixed-width 5-character segments joined by the path separator,
and two keys receive different leaf file names exactly when their SHA1
digests differ. -/
theorem c2_cas_path_function (key : List Nat) :
    (CASPathTransformFunc key).Filename = hexEncode (sha1 key) ∧
    (CASPathTransformFunc key).PathName =
      joinSlash (segments5 (hexEncode (sha1 key))) ∧
    (∀ seg ∈ segments5 (hexEncode (sha1 key)), seg.length = 5) ∧
    ∀ k2 : List Nat,
      ((CASPathTransformFunc key).Filename ≠ (CASPathTransformFunc k2).Filename ↔
        sha1 key ≠ sha1 k2) := by
  have hlen : (hexEncode (sha1 key)).length = 40 := by
    rw [hexEncode_length, sha1_length]
  refine ⟨CAS_filename key, CAS_pathName_segments key, ?_, ?_⟩
  · intro seg hseg
    rw [segments5_eq_range 8 _ (by omega)] at hseg
    obtain ⟨i, hi, rfl⟩ := List.mem_map.mp hseg
    have hi8 : i < 8 := List.mem_range.mp hi
    simp only [List.length_take, List.length_drop, hlen]
    omega
  · intro k2
    rw [CAS_filename key, CAS_filename k2]
    exact not_congr (hexEncode_inj (sha1 key) (sha1 k2) (sha1_lt key) (sha1_lt k2))

set_option maxRecDepth 100000 in
/-- Witness for C2: the keys `"a"` and `"b"` have different SHA1 digests
and so receive different leaf file names. -/
theorem c2_cas_path_function_witness :
    (CASPathTransformFunc [97]).Filename ≠ (CASPathTransformFunc [98]).Filename :=
  ((c2_cas_path_function [97]).2.2.2 [98]).mpr (by decide)

/-! ## Path-structure lemmas (for C3 and C9) -/

/-- A Go string free of the path separator. -/
def slashFree (s : List Char) : Bool :=
  s.all (fun c => !(c == '/'))

theorem slashFree_iff (s : List Char) :
    slashFree s = true ↔ ∀ c ∈ s, c ≠ '/' := by
  simp [slashFree]

/-- Two slash-prefixed decompositions with slash-free heads agree on the
head and tail. -/
theorem slashFree_append_inj (A : List Char) : ∀ (B r1 r2 : List Char),
    slashFree A = true → slashFree B = true →
    A ++ '/' :: r1 = B ++ '/' :: r2 → A = B ∧ r1 = r2 := by
  induction A with
  | nil =>
      intro B r1 r2 _ hB h
      cases B with
      | nil => simpa using h
      | cons b bs =>
          simp only [List.nil_append, List.cons_append, List.cons.injEq] at h
          have hb : b ≠ '/' := (slashFree_iff _).mp hB b (List.mem_cons_self _ _)
          exact absurd h.1.symm hb
  | cons a as ih =>
      intro B r1 r2 hA hB h
      cases B with
      | nil =>
          simp only [List.cons_append, List.nil_append, List.cons.injEq] at h
          have ha : a ≠ '/' := (slashFree_iff _).mp hA a (List.mem_cons_self _ _)
          exact absurd h.1 ha
      | cons b bs =>
          simp only [List.cons_append, List.cons.injEq] at h
          have hA2 : slashFree as = true := by
            rw [slashFree_iff] at hA ⊢
            exact fun c hc => hA c (List.mem_cons_of_mem _ hc)
          have hB2 : slashFree bs = true := by
            rw [slashFree_iff] at hB ⊢
            exact fun c hc => hB c (List.mem_cons_of_mem _ hc)
          obtain ⟨hab, htails⟩ := h
          obtain ⟨hh, ht⟩ := ih bs r1 r2 hA2 hB2 htails
          exact ⟨by rw [hab, hh], ht⟩

/-- Every entry of `dirPrefixesAux acc rest` is the whole joined path or a
slash-boundary prefix of it. -/
theorem dirPrefixesAux_mem (d : List Char) : ∀ (rest acc : List Char),
    d ∈ dirPrefixesAux acc rest →
      d = acc.reverse ++ rest ∨ ∃ r, acc.reverse ++ rest = d ++ '/' :: r := by
  intro rest
  induction rest with
  | nil =>
      intro acc h
      simp only [dirPrefixesAux, List.mem_singleton] at h
      left
      simp [h]
  | cons c cr ih =>
      intro acc h
      by_cases hc : c = '/'
      · subst hc
        rw [dirPrefixesAux, if_pos rfl] at h
        rcases List.mem_cons.mp h with rfl | h2
        · right
          exact ⟨cr, rfl⟩
        · rcases ih ('/' :: acc) h2 with h3 | ⟨r, h3⟩
          · left
            rw [h3]
            simp
          · right
            refine ⟨r, ?_⟩
            rw [← h3]
            simp
      · rw [dirPrefixesAux, if_neg hc] at h
        rcases ih (c :: acc) h with h3 | ⟨r, h3⟩
        · left
          rw [h3]
          simp
        · right
          refine ⟨r, ?_⟩
          rw [← h3]
          simp

/-- Splitting a string that starts with a slash-free component followed by
a slash peels off exactly that component. -/
theorem splitSlash_append (s : List Char) : ∀ r : List Char, slashFree s = true →
    splitSlash (s ++ '/' :: r) = s :: splitSlash r := by
  induction s with
  | nil => intro r _; simp [splitSlash]
  | cons c cs ih =>
      intro r hs
      have hc : c ≠ '/' := (slashFree_iff _).mp hs c (List.mem_cons_self _ _)
      have hcs : slashFree cs = true := by
        rw [slashFree_iff] at hs ⊢
        exact fun x hx => hs x (List.mem_cons_of_mem _ hx)
      show splitSlash (c :: (cs ++ '/' :: r)) = (c :: cs) :: splitSlash r
      rw [splitSlash, if_neg hc, ih r hcs]

theorem CAS_firstSeg (key : List Nat) :
    ∃ rest, (CASPathTransformFunc key).PathName =
        (hexEncode (sha1 key)).take 5 ++ '/' :: rest := by
  rw [CAS_pathName]
  have h8 : List.range 8 = [0, 1, 2, 3, 4, 5, 6, 7] := by decide
  rw [h8]
  simp only [List.map_cons, List.map_nil, joinSlash, Nat.zero_mul, List.drop_zero]
  exact ⟨_, rfl⟩

theorem CAS_firstSeg_slashFree (key : List Nat) :
    slashFree ((hexEncode (sha1 key)).take 5) = true := by
  rw [slashFree_iff]
  intro c hc
  exact hexEncode_mem_ne_slash _ (sha1_lt key) c (List.take_subset _ _ hc)

theorem CAS_firstPathName (key : List Nat) :
    (CASPathTransformFunc key).FirstPathName = (hexEncode (sha1 key)).take 5 := by
  obtain ⟨rest, hrest⟩ := CAS_firstSeg key
  unfold PathKey.FirstPathName
  rw [hrest, splitSlash_append _ rest (CAS_firstSeg_slashFree key)]
  rfl

/-- Cancel the common `<root>/` prefix of two formatted paths. -/
theorem slashPath_cancel (root : List Char) {X Y : List Char}
    (h : root ++ '/' :: X = root ++ '/' :: Y) : X = Y := by
  have h2 := List.append_cancel_left h
  injection h2

/-! ## C3: namespace isolation -/

set_option maxRecDepth 100000 in
/-- C3 as stated is false once a namespace string contains the path
separator: with key `"a"` (SHA1 `86f7e4…67b8`) and the distinct
namespaces `A = "b/<full CAS path of the key>"` and `B = "b"`, writing the
key under `A` makes `Has` under `B` report it present — the path `Has`
stats is a directory `MkdirAll` created for `A` — and `Read` under `B`
does not fail, since `os.Open` succeeds on that directory. -/
theorem c3_namespace_counterexample :
    (("b/86f7e/437fa/a5a7f/ce15d/1ddcb/9eaea/ea377/667b8/86f7e437faa5a7fce15d1ddcb9eaeaea377667b8").toList
      ≠ ("b").toList) ∧
    storeHas
      (storeWrite { files := [], dirs := [] } ("r").toList
        ("b/86f7e/437fa/a5a7f/ce15d/1ddcb/9eaea/ea377/667b8/86f7e437faa5a7fce15d1ddcb9eaeaea377667b8").toList
        [97])
      ("r").toList ("b").toList [97] = true ∧
    storeRead
      (storeWrite { files := [], dirs := [] } ("r").toList
        ("b/86f7e/437fa/a5a7f/ce15d/1ddcb/9eaea/ea377/667b8/86f7e437faa5a7fce15d1ddcb9eaeaea377667b8").toList
        [97])
      ("r").toList ("b").toList [97] = ReadRes.okDir := by
  refine ⟨by decide, by decide, by decide⟩

/-- C3 amended: for every key and every pair of distinct namespaces that
do not contain the path separator `'/'` (node IDs are hex strings, so real
identifiers never do), after writing the key under namespace `A` into an
empty store, `Has` under namespace `B` reports absent and `Read` under `B`
fails: the store's flat string-formatted paths only alias across
namespaces when a namespace string itself contains a separator. -/
theorem c3_namespace_isolation (root A B : List Char) (key : List Nat)
    (hA : slashFree A = true) (hB : slashFree B = true) (hAB : A ≠ B) :
    storeHas (storeWrite { files := [], dirs := [] } root A key) root B key = false ∧
    storeRead (storeWrite { files := [], dirs := [] } root A key) root B key =
      ReadRes.errNotFound := by
  have hfile : sprintf3 root B (CASPathTransformFunc key).FullPath ≠
      sprintf3 root A (CASPathTransformFunc key).FullPath := by
    intro h
    simp only [sprintf3, List.cons_append, List.append_assoc] at h
    have h2 := slashPath_cancel root h
    exact hAB ((slashFree_append_inj B A _ _ hB hA h2).1.symm)
  have hdir : ∀ d ∈ dirPrefixes (sprintf3 root A (CASPathTransformFunc key).PathName),
      sprintf3 root B (CASPathTransformFunc key).FullPath ≠ d := by
    intro d hd heq
    subst heq
    rcases dirPrefixesAux_mem _ _ [] hd with h1 | ⟨r, h1⟩
    · simp only [sprintf3, PathKey.FullPath, List.reverse_nil, List.nil_append,
        List.cons_append, List.append_assoc] at h1
      have h2 := slashPath_cancel root h1
      exact hAB ((slashFree_append_inj B A _ _ hB hA h2).1.symm)
    · simp only [sprintf3, PathKey.FullPath, List.reverse_nil, List.nil_append,
        List.cons_append, List.append_assoc] at h1
      have h2 := slashPath_cancel root h1
      exact hAB ((slashFree_append_inj A B _ _ hA hB h2).1)
  have hmem : ¬(sprintf3 root B (CASPathTransformFunc key).FullPath ∈
        (storeWrite { files := [], dirs := [] } root A key).files ∨
      sprintf3 root B (CASPathTransformFunc key).FullPath ∈
        (storeWrite { files := [], dirs := [] } root A key).dirs) := by
    rintro (hin | hin)
    · simp only [storeWrite, openFileForWriting, List.mem_singleton] at hin
      exact hfile hin
    · simp only [storeWrite, openFileForWriting, List.nil_append] at hin
      exact hdir _ hin rfl
  refine ⟨?_, ?_⟩
  · simp only [storeHas, hasWithStat, fsStat]
    rw [if_neg hmem]
    rfl
  · simp only [storeRead]
    rw [if_neg (fun h => hmem (Or.inl h)), if_neg (fun h => hmem (Or.inr h))]

/-- Witness for C3 (amended) at concrete slash-free namespaces. -/
theorem c3_namespace_isolation_witness :
    storeHas (storeWrite { files := [], dirs := [] } ("r").toList ("x").toList [97])
      ("r").toList ("y").toList [97] = false ∧
    storeRead (storeWrite { files := [], dirs := [] } ("r").toList ("x").toList [97])
      ("r").toList ("y").toList [97] = ReadRes.errNotFound :=
  c3_namespace_isolation ("r").toList ("x").toList ("y").toList [97]
    (by decide) (by decide) (by decide)

/-! ## C9: Delete removes the whole first shard directory -/

/-- C9: `Store.Delete` removes the entire top-level shard directory named
by the first 5-character digest segment, so for any two distinct keys whose
SHA1 hex digests share the same first 5 characters, deleting the first key
also removes the second key's file: afterwards `Has` reports the second
key absent even though it was never deleted. -/
theorem c9_delete_shard_collateral (root id : List Char) (k1 k2 : List Nat)
    (hne : k1 ≠ k2)
    (hpfx : (hexEncode (sha1 k1)).take 5 = (hexEncode (sha1 k2)).take 5) :
    storeHas (storeDelete (storeWrite (storeWrite { files := [], dirs := [] } root id k1)
        root id k2) root id k1) root id k2 = false := by
  obtain ⟨rest2, hrest2⟩ := CAS_firstSeg k2
  have hunder : underPath (sprintf3 root id (CASPathTransformFunc k1).FirstPathName)
      (sprintf3 root id (CASPathTransformFunc k2).FullPath) = true := by
    rw [CAS_firstPathName k1, hpfx]
    have hq : sprintf3 root id (CASPathTransformFunc k2).FullPath =
        (sprintf3 root id ((hexEncode (sha1 k2)).take 5) ++ ['/']) ++
          (rest2 ++ '/' :: (CASPathTransformFunc k2).Filename) := by
      simp only [sprintf3, PathKey.FullPath, hrest2, List.cons_append,
        List.append_assoc, List.singleton_append, List.nil_append]
    unfold underPath
    rw [hq]
    have hpre : List.isPrefixOf (sprintf3 root id ((hexEncode (sha1 k2)).take 5) ++ ['/'])
        ((sprintf3 root id ((hexEncode (sha1 k2)).take 5) ++ ['/']) ++
          (rest2 ++ '/' :: (CASPathTransformFunc k2).Filename)) = true := by
      rw [ List.isPrefixOf_iff_prefix]
      exact ⟨_, rfl⟩
    rw [hpre]
    simp
  have hnotin : ∀ l : List (List Char),
      sprintf3 root id (CASPathTransformFunc k2).FullPath ∉
        l.filter (fun e =>
          !underPath (sprintf3 root id (CASPathTransformFunc k1).FirstPathName) e) := by
    intro l hq
    have h2 := (List.mem_filter.mp hq).2
    rw [hunder] at h2
    simp at h2
  simp only [storeHas, hasWithStat, fsStat, storeDelete, removeAll]
  rw [if_neg]
  · rfl
  · rintro (hin | hin)
    · exact hnotin _ hin
    · exact hnotin _ hin

set_option maxRecDepth 1000000 in
/-- Witness for C9: the keys `"k865"` and `"k1902"` are distinct and their
SHA1 hex digests both start with `71910`; after writing both and deleting
the first, the second is reported absent. -/
theorem c9_delete_shard_collateral_witness :
    ([107, 56, 54, 53] ≠ ([107, 49, 57, 48, 50] : List Nat)) ∧
    (hexEncode (sha1 [107, 56, 54, 53])).take 5 =
      (hexEncode (sha1 [107, 49, 57, 48, 50])).take 5 ∧
    storeHas (storeDelete (storeWrite (storeWrite { files := [], dirs := [] }
          ("r").toList ("n").toList [107, 56, 54, 53])
        ("r").toList ("n").toList [107, 49, 57, 48, 50])
      ("r").toList ("n").toList [107, 56, 54, 53])
      ("r").toList ("n").toList [107, 49, 57, 48, 50] = false :=
  ⟨by decide, by decide,
    c9_delete_shard_collateral ("r").toList ("n").toList
      [107, 56, 54, 53] [107, 49, 57, 48, 50] (by decide) (by decide)⟩

end DFSG
